import Mathlib

/-!
# Verification of the double-SHA-256 mining simulator

Shallow embedding of `src/mining_sim.py` (functions `double_sha256` and
`mine_block`) together with theorems settling the specification claims.

Modelling conventions:
* Python `bytes` are `List Nat` (each logical byte is `< 256`; the digests our
  functions produce satisfy this by construction).
* Python `int` arguments (`difficulty`, `max_nonce`) are `Int`; the loop
  variable produced by `range` is a `Nat`.
* 32-bit words are `Nat` reduced modulo `2 ^ 32` wherever Python's fixed-width
  semantics matter (`hashlib`'s SHA-256 internals, `struct.pack`).
* `hashlib.sha256(x).digest()` is modelled by `sha256`, a complete FIPS 180-4
  implementation (validated below against the standard test vectors), so that
  claims can be evaluated on concrete inputs.
* `time.perf_counter` is external to the program; the single elapsed-time
  measurement taken when a match is found (line 37 of the source) is passed to
  `mine_block` as an explicit parameter `elapsed : ℚ` (Python floats are
  modelled as rationals).
* Python exceptions are modelled with `Except PyError`: `ValueError` raised on
  line 27, and `struct.error`, which `struct.pack("<I", nonce)` raises when
  `nonce > 0xFFFFFFFF` (reachable when `max_nonce ≥ 2 ^ 32`).
-/

/-! ## SHA-256 (model of `hashlib.sha256(data).digest()`) -/

/-- Lowercase hexadecimal digit characters, as produced by `bytes.hex()`. -/
def hexDigitChar (n : Nat) : Char :=
  match n with
  | 0 => '0' | 1 => '1' | 2 => '2' | 3 => '3'
  | 4 => '4' | 5 => '5' | 6 => '6' | 7 => '7'
  | 8 => '8' | 9 => '9' | 10 => 'a' | 11 => 'b'
  | 12 => 'c' | 13 => 'd' | 14 => 'e' | 15 => 'f'
  | _ => '*'

/-- Model of Python `bytes.hex()`: two lowercase hex digits per byte. -/
def bytesToHex : List Nat → List Char
  | [] => []
  | b :: bs => hexDigitChar (b / 16) :: hexDigitChar (b % 16) :: bytesToHex bs

/-- 32-bit right rotation (operands are words `< 2 ^ 32`). -/
def rotr32 (n x : Nat) : Nat :=
  ((x >>> n) ||| (x <<< (32 - n))) % 4294967296

/-- FIPS 180-4 `Σ0`. -/
def bigSigma0 (x : Nat) : Nat := rotr32 2 x ^^^ rotr32 13 x ^^^ rotr32 22 x

/-- FIPS 180-4 `Σ1`. -/
def bigSigma1 (x : Nat) : Nat := rotr32 6 x ^^^ rotr32 11 x ^^^ rotr32 25 x

/-- FIPS 180-4 `σ0`. -/
def smallSigma0 (x : Nat) : Nat := rotr32 7 x ^^^ rotr32 18 x ^^^ (x >>> 3)

/-- FIPS 180-4 `σ1`. -/
def smallSigma1 (x : Nat) : Nat := rotr32 17 x ^^^ rotr32 19 x ^^^ (x >>> 10)

/-- FIPS 180-4 `Ch` (32-bit complement written as xor with `0xFFFFFFFF`). -/
def shaCh (x y z : Nat) : Nat := (x &&& y) ^^^ ((x ^^^ 4294967295) &&& z)

/-- FIPS 180-4 `Maj`. -/
def shaMaj (x y z : Nat) : Nat := (x &&& y) ^^^ (x &&& z) ^^^ (y &&& z)

/-- The 64 SHA-256 round constants (the first 32 bits of the fractional
parts of the cube roots of the first 64 primes), written in decimal. -/
def shaK : List Nat :=
  [1116352408, 1899447441, 3049323471, 3921009573,
   961987163, 1508970993, 2453635748, 2870763221,
   3624381080, 310598401, 607225278, 1426881987,
   1925078388, 2162078206, 2614888103, 3248222580,
   3835390401, 4022224774, 264347078, 604807628,
   770255983, 1249150122, 1555081692, 1996064986,
   2554220882, 2821834349, 2952996808, 3210313671,
   3336571891, 3584528711, 113926993, 338241895,
   666307205, 773529912, 1294757372, 1396182291,
   1695183700, 1986661051, 2177026350, 2456956037,
   2730485921, 2820302411, 3259730800, 3345764771,
   3516065817, 3600352804, 4094571909, 275423344,
   430227734, 506948616, 659060556, 883997877,
   958139571, 1322822218, 1537002063, 1747873779,
   1955562222, 2024104815, 2227730452, 2361852424,
   2428436474, 2756734187, 3204031479, 3329325298]

/-- The eight 32-bit words of SHA-256 working state. -/
structure ShaState where
  a : Nat
  b : Nat
  c : Nat
  d : Nat
  e : Nat
  f : Nat
  g : Nat
  h : Nat
  deriving DecidableEq

/-- The SHA-256 initial hash value (first 32 bits of the fractional parts
of the square roots of the first 8 primes), written in decimal. -/
def shaInit : ShaState :=
  ⟨1779033703, 3144134277, 1013904242, 2773480762,
   1359893119, 2600822924, 528734635, 1541459225⟩

/-- Group a byte list into 32-bit big-endian words (leftovers dropped;
the padded input always has a multiple of 4 bytes). -/
def wordsOfBytesBE : List Nat → List Nat
  | b0 :: b1 :: b2 :: b3 :: rest =>
      (((b0 * 256 + b1) * 256 + b2) * 256 + b3) :: wordsOfBytesBE rest
  | _ => []

/-- Extend a 16-word block schedule by `fuel` further words
(`W[t] = σ1 W[t-2] + W[t-7] + σ0 W[t-15] + W[t-16] mod 2 ^ 32`). -/
def extendSchedule : Nat → List Nat → List Nat
  | 0, w => w
  | fuel + 1, w =>
      let t := w.length
      extendSchedule fuel
        (w ++ [(smallSigma1 (w.getD (t - 2) 0) + w.getD (t - 7) 0 +
                smallSigma0 (w.getD (t - 15) 0) + w.getD (t - 16) 0) % 4294967296])

/-- One SHA-256 compression round with round constant `k` and word `w`. -/
def shaRound (st : ShaState) (k w : Nat) : ShaState :=
  let t1 := (st.h + bigSigma1 st.e + shaCh st.e st.f st.g + k + w) % 4294967296
  let t2 := (bigSigma0 st.a + shaMaj st.a st.b st.c) % 4294967296
  ⟨(t1 + t2) % 4294967296, st.a, st.b, st.c,
   (st.d + t1) % 4294967296, st.e, st.f, st.g⟩

/-- Run the 64 rounds over the zipped (constant, schedule-word) list. -/
def shaRounds : List (Nat × Nat) → ShaState → ShaState
  | [], st => st
  | (k, w) :: rest, st => shaRounds rest (shaRound st k w)

/-- Compress one 64-byte block into the running hash value. -/
def shaCompress (hv : ShaState) (block : List Nat) : ShaState :=
  let w := extendSchedule 48 (wordsOfBytesBE block)
  let st := shaRounds (shaK.zip w) hv
  ⟨(hv.a + st.a) % 4294967296, (hv.b + st.b) % 4294967296,
   (hv.c + st.c) % 4294967296, (hv.d + st.d) % 4294967296,
   (hv.e + st.e) % 4294967296, (hv.f + st.f) % 4294967296,
   (hv.g + st.g) % 4294967296, (hv.h + st.h) % 4294967296⟩

/-- Fold the compression function over successive 64-byte blocks.

`fuel` only has to dominate the number of blocks; it is instantiated with the
length of the (padded) input. -/
def shaBlocks : Nat → ShaState → List Nat → ShaState
  | _, hv, [] => hv
  | 0, hv, _ => hv
  | fuel + 1, hv, l => shaBlocks fuel (shaCompress hv (l.take 64)) (l.drop 64)

/-- A 32-bit word as 4 big-endian bytes. -/
def word32ToBytesBE (w : Nat) : List Nat :=
  [w / 16777216 % 256, w / 65536 % 256, w / 256 % 256, w % 256]

/-- A 64-bit word as 8 big-endian bytes. -/
def word64ToBytesBE (w : Nat) : List Nat :=
  word32ToBytesBE (w / 4294967296 % 4294967296) ++ word32ToBytesBE (w % 4294967296)

/-- FIPS 180-4 padding: append `0x80`, then zeros up to 56 mod 64, then the
bit length as a 64-bit big-endian integer. -/
def shaPad (msg : List Nat) : List Nat :=
  let l := msg.length
  msg ++ [128] ++ List.replicate ((119 - l % 64) % 64) 0 ++
    word64ToBytesBE ((8 * l) % 18446744073709551616)

/-- The final hash value rendered as 32 bytes. -/
def shaStateBytes (hv : ShaState) : List Nat :=
  word32ToBytesBE hv.a ++ word32ToBytesBE hv.b ++ word32ToBytesBE hv.c ++
  word32ToBytesBE hv.d ++ word32ToBytesBE hv.e ++ word32ToBytesBE hv.f ++
  word32ToBytesBE hv.g ++ word32ToBytesBE hv.h

/-- Model of `hashlib.sha256(data).digest()`. -/
def sha256 (data : List Nat) : List Nat :=
  let padded := shaPad data
  shaStateBytes (shaBlocks padded.length shaInit padded)

/-- Model of `src/mining_sim.py` line 12:
`double_sha256(data) = sha256(sha256(data).digest()).digest()`. -/
def double_sha256 (data : List Nat) : List Nat :=
  sha256 (sha256 data)

/-! ## The miner (model of `mine_block`, `src/mining_sim.py` lines 16-47) -/

/-- The Python exceptions the program can raise: `ValueError` (line 27) and
`struct.error` (from `struct.pack` on line 33 when the nonce exceeds
`0xFFFFFFFF`). -/
inductive PyError where
  | valueError (msg : String)
  | structError (msg : String)
  deriving DecidableEq

/-- A Python float that is either an ordinary value (modelled as a rational)
or positive infinity (`float("inf")` on line 44). -/
inductive PyFloat where
  | val (q : ℚ)
  | inf
  deriving DecidableEq

/-- The result dictionary built on lines 38-45 of the source. -/
structure MiningResult where
  message : List Nat
  difficulty : Int
  nonce : Nat
  hash : List Char
  elapsed_seconds : ℚ
  hashrate_hps : PyFloat
  deriving DecidableEq

deriving instance DecidableEq for Except

/-- The 4-byte little-endian rendering of a nonce (the value of
`struct.pack("<I", nonce)` on its domain). -/
def pack4LE (n : Nat) : List Nat :=
  [n % 256, n / 256 % 256, n / 65536 % 256, n / 16777216 % 256]

/-- Model of `struct.pack("<I", nonce)`: defined for `nonce ≤ 0xFFFFFFFF`,
`struct.error` otherwise (the loop variable is never negative). -/
def packUInt32LE (n : Nat) : Except PyError (List Nat) :=
  if n ≤ 4294967295 then .ok (pack4LE n)
  else .error (.structError ("argument out of range"))

/-- Model of Python `s.startswith(pre)` on strings as character lists. -/
def strStartsWith : List Char → List Char → Bool
  | _, [] => true
  | [], _ :: _ => false
  | c :: cs, p :: ps => c == p && strStartsWith cs ps

/-- The hex digest string computed on line 34 for a given message and nonce:
`double_sha256(message + struct.pack("<I", nonce)).hex()`. -/
def hashHexOf (message : List Nat) (nonce : Nat) : List Char :=
  bytesToHex (double_sha256 (message ++ pack4LE nonce))

/-- The `for nonce in range(...)` loop of lines 32-45.  `nonce` is the current
candidate and `fuel` the number of iterations remaining; falling out of the
loop returns `none` (line 47). -/
def mineLoop (message : List Nat) (difficulty : Int) (targetZeros : List Char)
    (elapsed : ℚ) : Nat → Nat → Except PyError (Option MiningResult)
  | _, 0 => .ok none
  | nonce, fuel + 1 =>
    match packUInt32LE nonce with
    | .error e => .error e
    | .ok packed =>
      let hash_hex := bytesToHex (double_sha256 (message ++ packed))
      if strStartsWith hash_hex targetZeros then
        .ok (some
          { message := message
            difficulty := difficulty
            nonce := nonce
            hash := hash_hex
            elapsed_seconds := elapsed
            hashrate_hps :=
              if 0 < elapsed then .val ((nonce + 1 : ℚ) / elapsed) else .inf })
      else
        mineLoop message difficulty targetZeros elapsed (nonce + 1) fuel

/-- Model of `mine_block(message, difficulty, max_nonce)`.

`elapsed` is the elapsed-time measurement (`time.perf_counter() - start_time`)
taken at the moment a match is found; the clock is external input, so it is a
parameter.  `targetZeros` models `target_prefix = "0" * difficulty`, and the
loop runs over `range(max_nonce + 1)`, which is empty when `max_nonce < 0`. -/
def mine_block (message : List Nat) (difficulty : Int) (max_nonce : Int)
    (elapsed : ℚ) : Except PyError (Option MiningResult) :=
  if difficulty < 0 then .error (.valueError ("difficulty must be >= 0"))
  else
    mineLoop message difficulty (List.replicate difficulty.toNat '0') elapsed
      0 (max_nonce + 1).toNat

/-- Instrumentation: the number of `double_sha256` evaluations the loop
performs (`struct.pack` raises before the hash of its iteration is taken). -/
def mineLoopHashCount (message : List Nat) (targetZeros : List Char) :
    Nat → Nat → Nat
  | _, 0 => 0
  | nonce, fuel + 1 =>
    match packUInt32LE nonce with
    | .error _ => 0
    | .ok packed =>
      if strStartsWith (bytesToHex (double_sha256 (message ++ packed)))
          targetZeros then 1
      else 1 + mineLoopHashCount message targetZeros (nonce + 1) fuel

/-- The number of `double_sha256` evaluations a `mine_block` call performs. -/
def mineHashCount (message : List Nat) (difficulty : Int) (max_nonce : Int) :
    Nat :=
  if difficulty < 0 then 0
  else
    mineLoopHashCount message (List.replicate difficulty.toNat '0')
      0 (max_nonce + 1).toNat

/-! ## Concrete results used to instantiate theorems with hypotheses -/

/-- The result of `mine_block(b"\x07", 1, 100)` (found at nonce 1), with the
elapsed measurement taken to be 1 second. -/
def mined7 : MiningResult :=
  { message := [7]
    difficulty := 1
    nonce := 1
    hash :=
      ("0e454ddd7c6dfe7d9215cea960585580f81737baf870408ea0004cd7ddf1c2b0").toList
    elapsed_seconds := 1
    hashrate_hps := .val 2 }

/-- The hex digest of `double_sha256(b"" + pack("<I", 0))`. -/
def hashOfNonce0 : List Char :=
  ("8cb9012517c817fead650287d61bdd9c68803b6bf9c64133dcab3e65b5a50cb9").toList

/-- The result of `mine_block(b"", 0, 0)` when the clock measures 1 second. -/
def mined0e1 : MiningResult :=
  { message := [], difficulty := 0, nonce := 0, hash := hashOfNonce0
    elapsed_seconds := 1, hashrate_hps := .val 1 }

/-- The result of `mine_block(b"", 0, 0)` when the clock measures 0 seconds. -/
def mined0e0 : MiningResult :=
  { message := [], difficulty := 0, nonce := 0, hash := hashOfNonce0
    elapsed_seconds := 0, hashrate_hps := .inf }

/-! ## General lemmas about the embedding -/

theorem sha256_length (data : List Nat) : (sha256 data).length = 32 := by
  simp [sha256, shaStateBytes, word32ToBytesBE]

theorem double_sha256_length (data : List Nat) :
    (double_sha256 data).length = 32 :=
  sha256_length _

theorem bytesToHex_length (l : List Nat) :
    (bytesToHex l).length = 2 * l.length := by
  induction l with
  | nil => rfl
  | cons b bs ih => simp [bytesToHex, ih]; omega

theorem hashHexOf_def (message : List Nat) (nonce : Nat) :
    bytesToHex (double_sha256 (message ++ pack4LE nonce)) =
      hashHexOf message nonce := rfl

theorem hashHexOf_length (message : List Nat) (nonce : Nat) :
    (hashHexOf message nonce).length = 64 := by
  rw [hashHexOf, bytesToHex_length, double_sha256_length]

theorem strStartsWith_length :
    ∀ s p : List Char, strStartsWith s p = true → p.length ≤ s.length
  | _, [] => by simp
  | [], _ :: _ => by simp [strStartsWith]
  | c :: cs, q :: qs => by
    intro h
    simp only [strStartsWith, Bool.and_eq_true, beq_iff_eq] at h
    simpa using strStartsWith_length cs qs h.2

theorem strStartsWith_take :
    ∀ s p : List Char, strStartsWith s p = true → s.take p.length = p
  | _, [] => by simp
  | [], _ :: _ => by simp [strStartsWith]
  | c :: cs, q :: qs => by
    intro h
    simp only [strStartsWith, Bool.and_eq_true, beq_iff_eq] at h
    simpa [List.take, h.1] using strStartsWith_take cs qs h.2

/-- A target of more than 64 zeros can never match a 64-character digest. -/
theorem strStartsWith_hashHex_false_of_long (message : List Nat) (nonce d : Nat)
    (hd : 64 < d) :
    strStartsWith (hashHexOf message nonce) (List.replicate d '0') = false := by
  by_contra h
  have h' := strStartsWith_length _ _ (by simpa using h)
  rw [List.length_replicate, hashHexOf_length] at h'
  omega

theorem packUInt32LE_ok {n : Nat} (h : n ≤ 4294967295) :
    packUInt32LE n = .ok (pack4LE n) := by
  simp [packUInt32LE, h]

theorem packUInt32LE_err {n : Nat} (h : 4294967295 < n) :
    packUInt32LE n = .error (.structError ("argument out of range")) := by
  simp [packUInt32LE]; omega

/-! ## Loop characterization lemmas -/

/-- If every candidate in the window fails the target, the loop exhausts and
returns `none` (the window staying inside the 32-bit range). -/
theorem mineLoop_ok_none (message : List Nat) (difficulty : Int)
    (tz : List Char) (e : ℚ) :
    ∀ fuel nonce, nonce + fuel ≤ 4294967296 →
      (∀ i, i < fuel → strStartsWith (hashHexOf message (nonce + i)) tz = false) →
      mineLoop message difficulty tz e nonce fuel = .ok none := by
  intro fuel
  induction fuel with
  | zero => intro nonce _ _; rfl
  | succ n ih =>
    intro nonce hrange hfail
    have hn : nonce ≤ 4294967295 := by omega
    have h0 := hfail 0 (Nat.succ_pos n)
    simp only [Nat.add_zero] at h0
    simp only [mineLoop, packUInt32LE_ok hn, hashHexOf_def, h0, Bool.false_eq_true,
      if_false]
    exact ih (nonce + 1) (by omega) fun i hi => by
      have := hfail (i + 1) (by omega)
      simpa [Nat.add_assoc, Nat.add_comm 1 i] using this

/-- If the candidate at offset `j` matches and every earlier one fails, the
loop stops there and returns exactly the result record of lines 38-45. -/
theorem mineLoop_ok_some (message : List Nat) (difficulty : Int)
    (tz : List Char) (e : ℚ) :
    ∀ j fuel nonce, j < fuel → nonce + j ≤ 4294967295 →
      strStartsWith (hashHexOf message (nonce + j)) tz = true →
      (∀ i, i < j → strStartsWith (hashHexOf message (nonce + i)) tz = false) →
      mineLoop message difficulty tz e nonce fuel =
        .ok (some
          { message := message
            difficulty := difficulty
            nonce := nonce + j
            hash := hashHexOf message (nonce + j)
            elapsed_seconds := e
            hashrate_hps :=
              if 0 < e then .val ((((nonce + j : Nat) : ℚ) + 1) / e)
              else .inf }) := by
  intro j
  induction j with
  | zero =>
    intro fuel nonce hj hn hmatch _
    obtain ⟨f, rfl⟩ : ∃ f, fuel = f + 1 := ⟨fuel - 1, by omega⟩
    simp only [Nat.add_zero] at hmatch hn
    simp only [mineLoop, packUInt32LE_ok hn, hashHexOf_def, hmatch, if_true]
    simp
  | succ j ih =>
    intro fuel nonce hj hn hmatch hfail
    obtain ⟨f, rfl⟩ : ∃ f, fuel = f + 1 := ⟨fuel - 1, by omega⟩
    have h1 : nonce + 1 + j = nonce + (j + 1) := by omega
    have hn0 : nonce ≤ 4294967295 := by omega
    have h0 := hfail 0 (Nat.succ_pos j)
    simp only [Nat.add_zero] at h0
    simp only [mineLoop, packUInt32LE_ok hn0, hashHexOf_def, h0, Bool.false_eq_true,
      if_false]
    have hrec := ih f (nonce + 1) (by omega) (by omega)
      (by rw [h1]; exact hmatch)
      (fun i hi => by
        have h2 : nonce + 1 + i = nonce + (i + 1) := by omega
        rw [h2]; exact hfail (i + 1) (by omega))
    rw [h1] at hrec
    exact hrec

/-- Inversion: whenever the loop returns a result, the result is the record of
lines 38-45 built at the first matching nonce of the window. -/
theorem mineLoop_ok_some_inv (message : List Nat) (difficulty : Int)
    (tz : List Char) (e : ℚ) :
    ∀ fuel nonce r,
      mineLoop message difficulty tz e nonce fuel = .ok (some r) →
      nonce ≤ r.nonce ∧ r.nonce < nonce + fuel ∧ r.nonce ≤ 4294967295 ∧
      strStartsWith (hashHexOf message r.nonce) tz = true ∧
      (∀ i, nonce ≤ i → i < r.nonce →
        strStartsWith (hashHexOf message i) tz = false) ∧
      r.message = message ∧ r.difficulty = difficulty ∧
      r.hash = hashHexOf message r.nonce ∧ r.elapsed_seconds = e ∧
      r.hashrate_hps =
        (if 0 < e then .val (((r.nonce : ℚ) + 1) / e) else .inf) := by
  intro fuel
  induction fuel with
  | zero => intro nonce r h; simp [mineLoop] at h
  | succ f ih =>
    intro nonce r h
    by_cases hn : nonce ≤ 4294967295
    · simp only [mineLoop, packUInt32LE_ok hn, hashHexOf_def] at h
      by_cases hm : strStartsWith (hashHexOf message nonce) tz = true
      · rw [if_pos hm] at h
        obtain rfl : _ = r := Option.some.inj (Except.ok.inj h)
        refine ⟨Nat.le_refl _, ?_, hn, hm, ?_, rfl, rfl, rfl, rfl, rfl⟩
        · show nonce < nonce + (f + 1); omega
        · intro i h1 h2
          exact absurd (Nat.lt_of_le_of_lt h1 h2) (Nat.lt_irrefl nonce)
      · rw [if_neg hm] at h
        obtain ⟨ha, hb, hc, hd, he, hf⟩ := ih (nonce + 1) r h
        refine ⟨by omega, by omega, hc, hd, ?_, hf⟩
        intro i h1 h2
        rcases Nat.eq_or_lt_of_le h1 with h1 | h1
        · exact h1 ▸ (Bool.not_eq_true _).mp hm
        · exact he i h1 h2
    · rw [mineLoop, packUInt32LE_err (by omega)] at h
      exact absurd h (by simp)

/-- Inside the 32-bit range the loop never raises. -/
theorem mineLoop_no_error (message : List Nat) (difficulty : Int)
    (tz : List Char) (e : ℚ) :
    ∀ fuel nonce, nonce + fuel ≤ 4294967296 →
      ∃ o, mineLoop message difficulty tz e nonce fuel = .ok o := by
  intro fuel
  induction fuel with
  | zero => intro nonce _; exact ⟨none, rfl⟩
  | succ f ih =>
    intro nonce hrange
    have hn : nonce ≤ 4294967295 := by omega
    simp only [mineLoop, packUInt32LE_ok hn]
    by_cases hm :
        strStartsWith (bytesToHex (double_sha256 (message ++ pack4LE nonce)))
          tz = true
    · rw [if_pos hm]; exact ⟨_, rfl⟩
    · rw [if_neg hm]; exact ih (nonce + 1) (by omega)

/-- If no candidate ever matches and the window reaches past the 32-bit
range, the loop hits `struct.error` at nonce `4294967296`. -/
theorem mineLoop_error_of_overflow (message : List Nat) (difficulty : Int)
    (tz : List Char) (e : ℚ)
    (hnm : ∀ i, strStartsWith (hashHexOf message i) tz = false) :
    ∀ fuel nonce, nonce ≤ 4294967296 → 4294967296 < nonce + fuel →
      mineLoop message difficulty tz e nonce fuel =
        .error (.structError ("argument out of range")) := by
  intro fuel
  induction fuel with
  | zero => intro nonce h1 h2; omega
  | succ f ih =>
    intro nonce h1 h2
    by_cases hn : nonce ≤ 4294967295
    · have h0 := hnm nonce
      simp only [mineLoop, packUInt32LE_ok hn, hashHexOf_def, h0,
        Bool.false_eq_true, if_false]
      exact ih (nonce + 1) (by omega) (by omega)
    · rw [mineLoop, packUInt32LE_err (by omega)]

/-- The loop hashes each candidate at most once. -/
theorem mineLoopHashCount_le (message : List Nat) (tz : List Char) :
    ∀ fuel nonce, mineLoopHashCount message tz nonce fuel ≤ fuel := by
  intro fuel
  induction fuel with
  | zero => intro nonce; exact Nat.le_refl 0
  | succ f ih =>
    intro nonce
    rw [mineLoopHashCount]
    cases packUInt32LE nonce with
    | error _ => exact Nat.zero_le _
    | ok packed =>
      cases hm :
          strStartsWith (bytesToHex (double_sha256 (message ++ packed))) tz with
      | true => simp [hm]
      | false =>
        simp only [hm, Bool.false_eq_true, if_false]
        have := ih (nonce + 1)
        omega

/-- The loop can only raise `struct.error`, never `ValueError`. -/
theorem mineLoop_no_valueError (message : List Nat) (difficulty : Int)
    (tz : List Char) (e : ℚ) :
    ∀ fuel nonce s,
      mineLoop message difficulty tz e nonce fuel ≠ .error (.valueError s) := by
  intro fuel
  induction fuel with
  | zero => intro nonce s h; simp [mineLoop] at h
  | succ f ih =>
    intro nonce s h
    by_cases hn : nonce ≤ 4294967295
    · simp only [mineLoop, packUInt32LE_ok hn] at h
      by_cases hm :
          strStartsWith (bytesToHex (double_sha256 (message ++ pack4LE nonce)))
            tz = true
      · rw [if_pos hm] at h; exact absurd h (by simp)
      · rw [if_neg hm] at h; exact ih (nonce + 1) s h
    · rw [mineLoop, packUInt32LE_err (by omega)] at h
      simp at h

/-! ## Validation of the SHA-256 model against published test vectors -/

set_option maxRecDepth 4000 in
/-- FIPS 180-4 test vector: SHA-256 of the empty message. -/
theorem sha256_testVector_empty :
    bytesToHex (sha256 []) =
      ("e3b0c44298fc1c149afbf4c8996fb92427ae41e4649b934ca495991b7852b855").toList := by
  decide

set_option maxRecDepth 4000 in
/-- FIPS 180-4 test vector: SHA-256 of `b"abc"`. -/
theorem sha256_testVector_abc :
    bytesToHex (sha256 [97, 98, 99]) =
      ("ba7816bf8f01cfea414140de5dae2223b00361a396177a9cb410ff61f20015ad").toList := by
  decide

set_option maxRecDepth 4000 in
/-- Double SHA-256 of the empty message (a well-known Bitcoin value). -/
theorem double_sha256_testVector_empty :
    bytesToHex (double_sha256 []) =
      ("5df6e0e2761359d30a8275058e299fcc0381534545f55cf43e41983f5d4c9456").toList := by
  decide

/-! ## The claims -/

/-- Claim C3: for every byte sequence `p`, `double_sha256 p` is SHA-256
applied to the 32-byte digest `sha256 p` (the second pass hashes the
intermediate digest, not the original payload), and the output is always
exactly 32 bytes. -/
theorem claim_C3 (p : List Nat) :
    double_sha256 p = sha256 (sha256 p) ∧ (sha256 p).length = 32 ∧
    (double_sha256 p).length = 32 :=
  ⟨rfl, sha256_length p, double_sha256_length p⟩

/-- Claim C5 (amended): for every message, `difficulty ≥ 0` and
`max_nonce ≤ 0xFFFFFFFF`, if no nonce in `[0, max_nonce]` produces a digest
hex starting with `difficulty` zeros, `mine_block` returns `None` (not an
error) after examining the full range. -/
theorem claim_C5 (message : List Nat) (difficulty max_nonce : Int)
    (elapsed : ℚ) (hd : 0 ≤ difficulty) (hmn : max_nonce ≤ 4294967295)
    (hno : ∀ n : Nat, (n : Int) ≤ max_nonce →
      strStartsWith (bytesToHex (double_sha256 (message ++ pack4LE n)))
        (List.replicate difficulty.toNat '0') = false) :
    mine_block message difficulty max_nonce elapsed = .ok none := by
  unfold mine_block
  rw [if_neg (by omega)]
  apply mineLoop_ok_none
  · omega
  · intro i hi
    rw [Nat.zero_add]
    exact hno i (by omega)

/-- Claim C5 witness: at difficulty 65 no nonce can match, and the search
over `[0, 5]` returns `None`. -/
theorem claim_C5_witness :
    ((0 : Int) ≤ 65 ∧ (5 : Int) ≤ 4294967295) ∧
    mine_block [] 65 5 1 = .ok none :=
  ⟨⟨by decide, by decide⟩,
   claim_C5 [] 65 5 1 (by decide) (by decide)
     (fun n _ => strStartsWith_hashHex_false_of_long [] n _ (by decide))⟩

/-- Claim C6: for difficulty 0 and any message and `max_nonce ≥ 0`,
`mine_block` returns a result whose nonce is 0. -/
theorem claim_C6 (message : List Nat) (max_nonce : Int) (elapsed : ℚ)
    (hmn : 0 ≤ max_nonce) :
    ∃ r, mine_block message 0 max_nonce elapsed = .ok (some r) ∧
      r.nonce = 0 := by
  have hmatch :
      strStartsWith (hashHexOf message 0) (List.replicate (0 : Int).toNat '0') =
        true := rfl
  have h := mineLoop_ok_some message 0 (List.replicate (0 : Int).toNat '0')
    elapsed 0 (max_nonce + 1).toNat 0 (by omega) (by omega) hmatch
    (fun i hi => absurd hi (Nat.not_lt_zero i))
  unfold mine_block
  rw [if_neg (by omega)]
  exact ⟨_, h, rfl⟩

/-- Claim C6 witness: `mine_block(b"", 0, 0)` succeeds with nonce 0. -/
theorem claim_C6_witness :
    (0 : Int) ≤ 0 ∧
    ∃ r, mine_block [] 0 0 1 = .ok (some r) ∧ r.nonce = 0 :=
  ⟨by decide, claim_C6 [] 0 1 (by decide)⟩

/-- Claim C7: for every difficulty strictly greater than 64 and every message
and `max_nonce` in `[0, 0xFFFFFFFF]`, `mine_block` returns `None`: no nonce
can ever match a target longer than the 64-digit digest. -/
theorem claim_C7 (message : List Nat) (difficulty max_nonce : Int)
    (elapsed : ℚ) (hd : 64 < difficulty) (h0 : 0 ≤ max_nonce)
    (h1 : max_nonce ≤ 4294967295) :
    mine_block message difficulty max_nonce elapsed = .ok none := by
  unfold mine_block
  rw [if_neg (by omega)]
  apply mineLoop_ok_none
  · omega
  · intro i _
    exact strStartsWith_hashHex_false_of_long message _ _ (by omega)

/-- Claim C7 witness: difficulty 65 with `max_nonce = 3` returns `None`. -/
theorem claim_C7_witness :
    ((64 : Int) < 65 ∧ (0 : Int) ≤ 3 ∧ (3 : Int) ≤ 4294967295) ∧
    mine_block [7] 65 3 1 = .ok none :=
  ⟨⟨by decide, by decide, by decide⟩,
   claim_C7 [7] 65 3 1 (by decide) (by decide) (by decide)⟩

/-- Claim C10: for every message, every `difficulty ≥ 0` and every
`max_nonce < 0`, `mine_block` returns `None` immediately: the candidate range
is empty, zero hashes are computed, and no error is raised — even when
difficulty is 0. -/
theorem claim_C10 (message : List Nat) (difficulty max_nonce : Int)
    (elapsed : ℚ) (hd : 0 ≤ difficulty) (hmn : max_nonce < 0) :
    mine_block message difficulty max_nonce elapsed = .ok none ∧
    mineHashCount message difficulty max_nonce = 0 := by
  have hfuel : (max_nonce + 1).toNat = 0 := by omega
  constructor
  · unfold mine_block
    rw [if_neg (by omega), hfuel]
    rfl
  · unfold mineHashCount
    rw [if_neg (by omega), hfuel]
    rfl

/-- Claim C10 witness: `mine_block(b"", 0, -1)` returns `None` with zero
hashes computed. -/
theorem claim_C10_witness :
    ((0 : Int) ≤ 0 ∧ (-1 : Int) < 0) ∧
    (mine_block [] 0 (-1) 1 = .ok none ∧ mineHashCount [] 0 (-1) = 0) :=
  ⟨⟨by decide, by decide⟩, claim_C10 [] 0 (-1) 1 (by decide) (by decide)⟩

/-! ## Concrete runs used by witnesses -/

set_option maxRecDepth 8000 in
/-- Concrete run: `mine_block(b"\x07", 1, 100)` (with a 1-second elapsed
measurement) finds nonce 1. -/
theorem mine_block_seven_eq :
    mine_block [7] 1 100 1 = .ok (some mined7) := by
  have h := mineLoop_ok_some [7] 1 (List.replicate (1 : Int).toNat '0') 1
    1 ((100 : Int) + 1).toNat 0 (by decide) (by decide) (by decide)
    (fun i hi => by
      obtain rfl : i = 0 := by omega
      decide)
  unfold mine_block
  rw [if_neg (by norm_num), h]
  simp only [Except.ok.injEq, Option.some.injEq]
  unfold mined7
  simp only [MiningResult.mk.injEq]
  refine ⟨trivial, trivial, trivial, by decide, trivial, ?_⟩
  rw [if_pos (by norm_num : (0 : ℚ) < 1)]
  simp only [PyFloat.val.injEq]
  norm_num

set_option maxRecDepth 8000 in
/-- Concrete run: `mine_block(b"", 0, 0)` with a 1-second elapsed
measurement. -/
theorem mine_block_empty_e1_eq :
    mine_block [] 0 0 1 = .ok (some mined0e1) := by
  have h := mineLoop_ok_some [] 0 (List.replicate (0 : Int).toNat '0') 1
    0 ((0 : Int) + 1).toNat 0 (by decide) (by decide) rfl
    (fun i hi => absurd hi (Nat.not_lt_zero i))
  unfold mine_block
  rw [if_neg (by norm_num), h]
  simp only [Except.ok.injEq, Option.some.injEq]
  unfold mined0e1 hashOfNonce0
  simp only [MiningResult.mk.injEq]
  refine ⟨trivial, trivial, trivial, by decide, trivial, ?_⟩
  rw [if_pos (by norm_num : (0 : ℚ) < 1)]
  simp only [PyFloat.val.injEq]
  norm_num

set_option maxRecDepth 8000 in
/-- Concrete run: `mine_block(b"", 0, 0)` with a 0-second elapsed
measurement. -/
theorem mine_block_empty_e0_eq :
    mine_block [] 0 0 0 = .ok (some mined0e0) := by
  have h := mineLoop_ok_some [] 0 (List.replicate (0 : Int).toNat '0') 0
    0 ((0 : Int) + 1).toNat 0 (by decide) (by decide) rfl
    (fun i hi => absurd hi (Nat.not_lt_zero i))
  unfold mine_block
  rw [if_neg (by norm_num), h]
  simp only [Except.ok.injEq, Option.some.injEq]
  unfold mined0e0 hashOfNonce0
  simp only [MiningResult.mk.injEq]
  refine ⟨trivial, trivial, trivial, by decide, trivial, ?_⟩
  rw [if_neg (by norm_num : ¬ (0 : ℚ) < 0)]

/-- Claim C1: for every message, difficulty `≥ 0` and `max_nonce` in
`[0, 0xFFFFFFFF]`, if `mine_block` returns a result then its nonce lies in
`[0, max_nonce]`, its hash field is the lowercase hex rendering of
`double_sha256(message ++ nonce-LE-4)`, and the first `difficulty` characters
of that hex string are all zeros. -/
theorem claim_C1 (message : List Nat) (difficulty max_nonce : Int)
    (elapsed : ℚ) (r : MiningResult) (hd : 0 ≤ difficulty)
    (h0 : 0 ≤ max_nonce) (h1 : max_nonce ≤ 4294967295)
    (hr : mine_block message difficulty max_nonce elapsed = .ok (some r)) :
    (r.nonce : Int) ≤ max_nonce ∧
    r.hash = bytesToHex (double_sha256 (message ++ pack4LE r.nonce)) ∧
    r.hash.take difficulty.toNat = List.replicate difficulty.toNat '0' := by
  unfold mine_block at hr
  rw [if_neg (by omega)] at hr
  obtain ⟨-, hb, -, hmatch, -, -, -, hhash, -, -⟩ :=
    mineLoop_ok_some_inv message difficulty _ elapsed _ 0 r hr
  refine ⟨by omega, ?_, ?_⟩
  · rw [hhash]; rfl
  · have ht := strStartsWith_take _ _ hmatch
    rw [List.length_replicate] at ht
    rw [hhash]
    exact ht

set_option maxRecDepth 8000 in
/-- Claim C1 witness: `mine_block(b"\x07", 1, 100)` returns the record
`mined7` (nonce 1), whose hash starts with one zero. -/
theorem claim_C1_witness :
    ((0 : Int) ≤ 1 ∧ (0 : Int) ≤ 100 ∧ (100 : Int) ≤ 4294967295 ∧
      mine_block [7] 1 100 1 = .ok (some mined7)) ∧
    ((mined7.nonce : Int) ≤ 100 ∧
      mined7.hash = bytesToHex (double_sha256 ([7] ++ pack4LE mined7.nonce)) ∧
      mined7.hash.take (1 : Int).toNat = List.replicate (1 : Int).toNat '0') :=
  ⟨⟨by decide, by decide, by decide, mine_block_seven_eq⟩,
   claim_C1 [7] 1 100 1 mined7 (by decide) (by decide) (by decide)
     mine_block_seven_eq⟩

/-- Claim C2 (minimality): for every message, difficulty `≥ 0` and every
`max_nonce`, if `mine_block` returns a result with nonce `N` then no nonce
below `N` produces a digest hex starting with `difficulty` zeros. -/
theorem claim_C2 (message : List Nat) (difficulty max_nonce : Int)
    (elapsed : ℚ) (r : MiningResult) (hd : 0 ≤ difficulty)
    (hr : mine_block message difficulty max_nonce elapsed = .ok (some r)) :
    ∀ n : Nat, n < r.nonce →
      strStartsWith (bytesToHex (double_sha256 (message ++ pack4LE n)))
        (List.replicate difficulty.toNat '0') = false := by
  unfold mine_block at hr
  rw [if_neg (by omega)] at hr
  obtain ⟨-, -, -, -, hmin, -⟩ :=
    mineLoop_ok_some_inv message difficulty _ elapsed _ 0 r hr
  intro n hn
  exact hmin n (Nat.zero_le n) hn

set_option maxRecDepth 8000 in
/-- Claim C2 witness: the nonce-1 result for message `b"\x07"` at
difficulty 1 has no earlier match — nonce 0 fails the target. -/
theorem claim_C2_witness :
    ((0 : Int) ≤ 1 ∧ mine_block [7] 1 100 1 = .ok (some mined7) ∧
      0 < mined7.nonce) ∧
    strStartsWith (bytesToHex (double_sha256 ([7] ++ pack4LE 0)))
      (List.replicate (1 : Int).toNat '0') = false :=
  ⟨⟨by decide, mine_block_seven_eq, by decide⟩,
   claim_C2 [7] 1 100 1 mined7 (by decide) mine_block_seven_eq 0 (by decide)⟩

/-- Claim C8: in every returned result, `hashrate_hps` is
`(nonce + 1) / elapsed_seconds` when `elapsed_seconds > 0` and positive
infinity when `elapsed_seconds = 0`; the zero case produces the infinity
value rather than an error (Python floats modelled as rationals plus an
infinity point). -/
theorem claim_C8 (message : List Nat) (difficulty max_nonce : Int)
    (elapsed : ℚ) (r : MiningResult)
    (hr : mine_block message difficulty max_nonce elapsed = .ok (some r)) :
    (0 < r.elapsed_seconds →
      r.hashrate_hps = .val (((r.nonce : ℚ) + 1) / r.elapsed_seconds)) ∧
    (r.elapsed_seconds = 0 → r.hashrate_hps = .inf) := by
  have hd : ¬ difficulty < 0 := by
    intro hd
    unfold mine_block at hr
    rw [if_pos hd] at hr
    exact absurd hr (by simp)
  unfold mine_block at hr
  rw [if_neg hd] at hr
  obtain ⟨-, -, -, -, -, -, -, -, hel, hrate⟩ :=
    mineLoop_ok_some_inv message difficulty _ elapsed _ 0 r hr
  subst hel
  constructor
  · intro hpos; rw [hrate, if_pos hpos]
  · intro hz; rw [hrate, hz, if_neg (lt_irrefl 0)]

set_option maxRecDepth 8000 in
/-- Claim C8 witness: with a 1-second measurement the rate is
`(0 + 1) / 1 = 1`; with a 0-second measurement it is the infinity value. -/
theorem claim_C8_witness :
    (mine_block [] 0 0 1 = .ok (some mined0e1) ∧
      0 < mined0e1.elapsed_seconds ∧
      mined0e1.hashrate_hps =
        .val (((mined0e1.nonce : ℚ) + 1) / mined0e1.elapsed_seconds)) ∧
    (mine_block [] 0 0 0 = .ok (some mined0e0) ∧
      mined0e0.elapsed_seconds = 0 ∧ mined0e0.hashrate_hps = .inf) :=
  ⟨⟨mine_block_empty_e1_eq, by norm_num [mined0e1],
    (claim_C8 [] 0 0 1 mined0e1 mine_block_empty_e1_eq).1
      (by norm_num [mined0e1])⟩,
   ⟨mine_block_empty_e0_eq, rfl,
    (claim_C8 [] 0 0 0 mined0e0 mine_block_empty_e0_eq).2 rfl⟩⟩

/-- Claim C4 counterexample: with difficulty 65 (which is `≥ 0`) and
`max_nonce = 2 ^ 32`, `mine_block` raises `struct.error` from the nonce
serializer at nonce `2 ^ 32` — so "for every other input mine_block never
raises" is false as stated. -/
theorem claim_C4_counterexample :
    (0 : Int) ≤ 65 ∧
    mine_block [] 65 4294967296 1 =
      .error (.structError ("argument out of range")) := by
  refine ⟨by decide, ?_⟩
  unfold mine_block
  rw [if_neg (by decide)]
  apply mineLoop_error_of_overflow
  · intro i
    exact strStartsWith_hashHex_false_of_long [] i _ (by decide)
  · omega
  · omega

/-- Claim C4 (amended): `mine_block` raises `ValueError` if and only if
`difficulty < 0`, and then before any hashing; for every other input with
`max_nonce ≤ 0xFFFFFFFF` it never raises (for `max_nonce ≥ 2 ^ 32` the nonce
serializer can raise `struct.error` once the 32-bit range is exhausted). -/
theorem claim_C4 (message : List Nat) (difficulty max_nonce : Int)
    (elapsed : ℚ) :
    (difficulty < 0 →
      mine_block message difficulty max_nonce elapsed =
        .error (.valueError ("difficulty must be >= 0")) ∧
      mineHashCount message difficulty max_nonce = 0) ∧
    (∀ s, mine_block message difficulty max_nonce elapsed =
        .error (.valueError s) → difficulty < 0) ∧
    (0 ≤ difficulty → max_nonce ≤ 4294967295 →
      ∃ o, mine_block message difficulty max_nonce elapsed = .ok o) := by
  refine ⟨?_, ?_, ?_⟩
  · intro hd
    constructor
    · unfold mine_block; rw [if_pos hd]
    · unfold mineHashCount; rw [if_pos hd]
  · intro s h
    by_contra hd
    unfold mine_block at h
    rw [if_neg hd] at h
    exact mineLoop_no_valueError message difficulty _ elapsed _ 0 s h
  · intro hd hmn
    unfold mine_block
    rw [if_neg (by omega)]
    exact mineLoop_no_error message difficulty _ elapsed _ 0 (by omega)

/-- Claim C4 witness: at difficulty `-1` the `ValueError` is raised with no
hashing; a `ValueError` outcome forces a negative difficulty; and a benign
input (difficulty 3, `max_nonce` 5) does not raise. -/
theorem claim_C4_witness :
    (mine_block [] (-1) 5 1 =
        .error (.valueError ("difficulty must be >= 0")) ∧
      mineHashCount [] (-1) 5 = 0) ∧
    (-1 : Int) < 0 ∧
    (∃ o, mine_block [] 3 5 1 = .ok o) :=
  ⟨(claim_C4 [] (-1) 5 1).1 (by decide),
   (claim_C4 [] (-1) 5 1).2.1 ("difficulty must be >= 0")
     ((claim_C4 [] (-1) 5 1).1 (by decide)).1,
   (claim_C4 [] 3 5 1).2.2 (by decide) (by decide)⟩

/-- Claim C9 counterexample: for `max_nonce = 2 ^ 32` and difficulty 66 the
loop neither stops at a match nor falls through to the not-found return — it
terminates with `struct.error` — so the "either … or …" clause of the claim
fails for inputs beyond the 32-bit nonce range. -/
theorem claim_C9_counterexample :
    (0 : Int) ≤ 66 ∧
    mine_block [1] 66 4294967296 1 =
      .error (.structError ("argument out of range")) := by
  refine ⟨by decide, ?_⟩
  unfold mine_block
  rw [if_neg (by decide)]
  apply mineLoop_error_of_overflow
  · intro i
    exact strStartsWith_hashHex_false_of_long [1] i _ (by decide)
  · omega
  · omega

/-- Claim C9 (amended): `mine_block` always terminates, computing at most
`max_nonce + 1` hashes; for `max_nonce ≤ 0xFFFFFFFF` (and `difficulty ≥ 0`)
it stops at the first match or falls through to the not-found return, never
an error; for `max_nonce` beyond the 32-bit range with no matching nonce it
instead terminates with the serializer's `struct.error`. -/
theorem claim_C9 (message : List Nat) (difficulty max_nonce : Int)
    (elapsed : ℚ) :
    mineHashCount message difficulty max_nonce ≤ (max_nonce + 1).toNat ∧
    (0 ≤ difficulty → max_nonce ≤ 4294967295 →
      ∃ o, mine_block message difficulty max_nonce elapsed = .ok o) ∧
    (0 ≤ difficulty → 4294967295 < max_nonce →
      (∀ n : Nat,
        strStartsWith (bytesToHex (double_sha256 (message ++ pack4LE n)))
          (List.replicate difficulty.toNat '0') = false) →
      mine_block message difficulty max_nonce elapsed =
        .error (.structError ("argument out of range"))) := by
  refine ⟨?_, ?_, ?_⟩
  · unfold mineHashCount
    by_cases hd : difficulty < 0
    · rw [if_pos hd]; exact Nat.zero_le _
    · rw [if_neg hd]; exact mineLoopHashCount_le message _ _ 0
  · intro hd hmn
    unfold mine_block
    rw [if_neg (by omega)]
    exact mineLoop_no_error message difficulty _ elapsed _ 0 (by omega)
  · intro hd hmn hno
    unfold mine_block
    rw [if_neg (by omega)]
    apply mineLoop_error_of_overflow
    · intro i; exact hno i
    · omega
    · omega

/-- Claim C9 witness: the hash-count bound and ok-outcome at a benign input,
and the overflow error at difficulty 65 with `max_nonce = 2 ^ 32 + 1`. -/
theorem claim_C9_witness :
    (mineHashCount [] 0 0 ≤ ((0 : Int) + 1).toNat ∧
      (∃ o, mine_block [] 0 0 1 = .ok o)) ∧
    mine_block [2] 65 4294967297 1 =
      .error (.structError ("argument out of range")) :=
  ⟨⟨(claim_C9 [] 0 0 1).1, (claim_C9 [] 0 0 1).2.1 (by decide) (by decide)⟩,
   (claim_C9 [2] 65 4294967297 1).2.2 (by decide) (by decide)
     (fun n => strStartsWith_hashHex_false_of_long [2] n _ (by decide))⟩

/-- Claim C5 counterexample: with difficulty 70 no nonce at all can match,
yet for `max_nonce = 2 ^ 32 + 4` the function does not return `None` — it
raises `struct.error` — so the claim fails for `max_nonce` beyond the 32-bit
range. -/
theorem claim_C5_counterexample :
    (∀ n : Nat,
      strStartsWith (bytesToHex (double_sha256 ([0] ++ pack4LE n)))
        (List.replicate (70 : Int).toNat '0') = false) ∧
    mine_block [0] 70 4294967300 1 =
      .error (.structError ("argument out of range")) := by
  constructor
  · intro n
    exact strStartsWith_hashHex_false_of_long [0] n _ (by decide)
  · unfold mine_block
    rw [if_neg (by decide)]
    apply mineLoop_error_of_overflow
    · intro i
      exact strStartsWith_hashHex_false_of_long [0] i _ (by decide)
    · omega
    · omega

